import Mathlib

/-!
Verification of the summarization pipeline in `main.py` of the NewsSummary
repository.  Strings are modelled as `List Char`; Python's `str` methods
(`split`, `strip`, `join`, `lower`, `in`) are embedded as executable Lean
functions; the remote generation service is a parameter
(`prompt → attempt → Option response`), and `None`/exception outcomes are
`Option`/`Except` values.

Prompt construction appears at two levels of fidelity.  The pipeline model
(`formatSummaryPrompt`, `formatCategoryPrompt`) treats
`TEMPLATE.format(...)` as substitution of the argument at the placeholder,
and every property below treats the resulting prompt text as opaque — only
which prompt maps to which response matters.  `pyFormat` separately models
Python's actual `str.format` field parsing; on the summary template, whose
literal JSON-schema braces are not doubled, it raises `KeyError` (see
`summary_prompt_format_raises`), so on the real interpreter the pipeline
aborts at prompt construction for any non-empty normalized body.  The
response-handling properties are therefore stated against the
substitution-level model, which reflects the control flow the source text
writes downstream of the format calls.
-/

namespace NewsSummary

/-- Python whitespace characters, as used by `str.strip()` and `str.split()`
(ASCII subset). -/
def isPyWs (c : Char) : Bool :=
  c = ' ' || c = '\t' || c = '\n' || c = '\x0d' || c = '\x0b' || c = '\x0c'

/-- Python `str.strip()`: drop leading and trailing whitespace. -/
def pyStrip (l : List Char) : List Char :=
  ((l.dropWhile isPyWs).reverse.dropWhile isPyWs).reverse

/-- Python `sep.join(parts)` for a list of strings. -/
def pyJoin (sep : List Char) : List (List Char) → List Char
  | [] => []
  | [x] => x
  | x :: y :: t => x ++ sep ++ pyJoin sep (y :: t)

/-- Python `text.split(sep)` for a one-character separator: the list of
(possibly empty) segments between occurrences of `sep`. -/
def pySplitOn (sep : Char) : List Char → List (List Char)
  | [] => [[]]
  | c :: cs =>
    match pySplitOn sep cs with
    | [] => [[]]
    | h :: t => if c = sep then [] :: h :: t else (c :: h) :: t

/-- Helper for `pyWords`: `acc` is the (reversed) word currently being read. -/
def pyWordsAux : List Char → List Char → List (List Char)
  | acc, [] => if acc = [] then [] else [acc.reverse]
  | acc, c :: cs =>
    if isPyWs c then
      if acc = [] then pyWordsAux [] cs else acc.reverse :: pyWordsAux [] cs
    else pyWordsAux (c :: acc) cs

/-- Python `text.split()` with no argument: split on whitespace runs,
discarding empty strings. -/
def pyWords (l : List Char) : List (List Char) :=
  pyWordsAux [] l

/-- Python `str.lower()` (ASCII case folding). -/
def pyLower (l : List Char) : List Char :=
  l.map Char.toLower

/-- Does `s` start with `pat`? -/
def startsWithList : List Char → List Char → Bool
  | [], _ => true
  | _ :: _, [] => false
  | p :: ps, c :: cs => p = c && startsWithList ps cs

/-- Python `pat in s` substring test. -/
def containsSub (pat : List Char) : List Char → Bool
  | [] => startsWithList pat []
  | c :: cs => startsWithList pat (c :: cs) || containsSub pat cs

/-- Python-style removal of duplicates keeping first occurrences
(`list(dict.fromkeys(xs))`); `seen` holds the values already emitted. -/
def dedupKeepFirst {α : Type} [DecidableEq α] (seen : List α) : List α → List α
  | [] => []
  | x :: xs =>
    if x ∈ seen then dedupKeepFirst seen xs
    else x :: dedupKeepFirst (x :: seen) xs

def isDigitChar (c : Char) : Bool := '0' ≤ c && c ≤ '9'

/-- After the `H:MM` part of the timestamp pattern: the regex tail
`(\s*(GMT|BST))?$` — either nothing, or optional whitespace followed by
exactly `GMT` or `BST`. -/
def tsTail (l : List Char) : Bool :=
  match l with
  | [] => true
  | _ =>
    let r := l.dropWhile isPyWs
    r = "GMT".toList || r = "BST".toList

/-- The line filter regex of `clean_article_text`:
`^\d{1,2}:\d{2}(\s*(GMT|BST))?$`. -/
def isTimestamp (l : List Char) : Bool :=
  match l with
  | [] => false
  | d1 :: rest =>
    isDigitChar d1 &&
    (match rest with
     | ':' :: m1 :: m2 :: t => isDigitChar m1 && isDigitChar m2 && tsTail t
     | d2 :: ':' :: m1 :: m2 :: t =>
       isDigitChar d2 && isDigitChar m1 && isDigitChar m2 && tsTail t
     | _ => false)

/-- One iteration of the line loop in `clean_article_text`: strip the line,
keep it unless it is blank, a timestamp, or boilerplate. -/
def processLine (l : List Char) : Option (List Char) :=
  if pyStrip l = [] then none
  else if isTimestamp (pyStrip l) then none
  else if containsSub "Follow BBC".toList (pyStrip l) ||
      containsSub "Related Topics".toList (pyStrip l) then none
  else some (pyStrip l)

/-- The `cleaned` list built by the loop in `clean_article_text`. -/
def cleanLines (text : List Char) : List (List Char) :=
  (pySplitOn '\n' text).filterMap processLine

/-- `clean_article_text` from `main.py`: split into lines, strip each,
drop blanks / timestamps / boilerplate, dedupe preserving order, re-join. -/
def clean_article_text (text : List Char) : List Char :=
  pyJoin ['\n'] (dedupKeepFirst [] (cleanLines text))

/-- Word groups of size `n` (`words[i:i + max_words]` for
`i in range(0, len(words), max_words)`); `fuel` bounds the recursion and is
instantiated with the list length. -/
def chunkGroups {α : Type} (n : Nat) : Nat → List α → List (List α)
  | _, [] => []
  | 0, _ :: _ => []
  | fuel + 1, x :: xs => ((x :: xs).take n) :: chunkGroups n fuel ((x :: xs).drop n)

/-- `chunk_text` from `main.py`: split into words and join each group of at
most `max_words` consecutive words with single spaces. -/
def chunk_text (text : List Char) (max_words : Nat := 600) : List (List Char) :=
  (chunkGroups max_words (pyWords text).length (pyWords text)).map (pyJoin [' '])

/-- The retry loop of `call_gemini`, beginning at attempt number `attempt`
with `rem` attempts remaining; `genOnce i` is the outcome of the backing
`generate_content` call on attempt `i` (`none` = exception).  Returns the
result together with the total number of attempts performed. -/
def callGeminiFrom {α : Type} (genOnce : Nat → Option α) :
    Nat → Nat → Option α × Nat
  | attempt, 0 => (none, attempt)
  | attempt, rem + 1 =>
    match genOnce attempt with
    | some r => (some r, attempt + 1)
    | none => callGeminiFrom genOnce (attempt + 1) rem

/-- `call_gemini` from `main.py`: up to `retries` attempts of the backing
call, returning `none` after exhausting them.  The second component records
how many attempts were performed (the loop's iteration count). -/
def call_gemini {α : Type} (genOnce : Nat → Option α) (retries : Nat := 4) :
    Option α × Nat :=
  callGeminiFrom genOnce 0 retries

/-! ## JSON values and `json.loads` -/

/-- Parsed JSON values.  Numbers are kept as their source lexeme: no claim
inspects numeric values, only structure and string fields. -/
inductive Json where
  | null
  | bool (b : Bool)
  | num (lexeme : List Char)
  | str (s : List Char)
  | arr (elems : List Json)
  | obj (members : List (List Char × Json))

/-- JSON insignificant whitespace. -/
def isJsonWs (c : Char) : Bool :=
  c = ' ' || c = '\t' || c = '\n' || c = '\x0d'

def skipWs (l : List Char) : List Char :=
  l.dropWhile isJsonWs

/-- Values of the two-character string escapes. -/
def escChar (c : Char) : Option Char :=
  if c = '"' then some '"'
  else if c = '\\' then some '\\'
  else if c = '/' then some '/'
  else if c = 'b' then some '\x08'
  else if c = 'f' then some '\x0c'
  else if c = 'n' then some '\n'
  else if c = 'r' then some '\x0d'
  else if c = 't' then some '\t'
  else none

/-- Value of one hexadecimal digit (`0-9`, `a-f`, `A-F`), by code point. -/
def hexVal (c : Char) : Option Nat :=
  let n := c.toNat
  if 48 ≤ n && n ≤ 57 then some (n - 48)
  else if 97 ≤ n && n ≤ 102 then some (n - 87)
  else if 65 ≤ n && n ≤ 70 then some (n - 55)
  else none

/-- Body of a JSON string after its opening quote: returns the decoded
content and the input after the closing quote.  Bare control characters are
rejected (strict mode of `json.loads`). -/
def parseStringBody : Nat → List Char → Option (List Char × List Char)
  | 0, _ => none
  | _ + 1, [] => none
  | fuel + 1, c :: cs =>
    if c = '"' then some ([], cs)
    else if c = '\\' then
      match cs with
      | 'u' :: h1 :: h2 :: h3 :: h4 :: cs' =>
        match hexVal h1, hexVal h2, hexVal h3, hexVal h4 with
        | some a, some b, some c2, some d =>
          (parseStringBody fuel cs').map
            (fun pr => (Char.ofNat (((a * 16 + b) * 16 + c2) * 16 + d) :: pr.1, pr.2))
        | _, _, _, _ => none
      | e :: cs' =>
        match escChar e with
        | some d => (parseStringBody fuel cs').map (fun pr => (d :: pr.1, pr.2))
        | none => none
      | [] => none
    else if c.toNat < 32 then none
    else (parseStringBody fuel cs).map (fun pr => (c :: pr.1, pr.2))

/-- Exponent part of a JSON number (or nothing). -/
def parseExpPart (acc : List Char) (s : List Char) : Option (List Char × List Char) :=
  match s with
  | e :: r =>
    if e = 'e' || e = 'E' then
      let sg : List Char × List Char :=
        match r with
        | '+' :: r2 => (['+'], r2)
        | '-' :: r2 => (['-'], r2)
        | _ => ([], r)
      let ds := sg.2.takeWhile isDigitChar
      if ds = [] then none
      else some (acc ++ e :: (sg.1 ++ ds), sg.2.dropWhile isDigitChar)
    else some (acc, e :: r)
  | [] => some (acc, [])

/-- Fraction part of a JSON number (or nothing), then the exponent part. -/
def parseFracPart (acc : List Char) (s : List Char) : Option (List Char × List Char) :=
  match s with
  | '.' :: r =>
    let ds := r.takeWhile isDigitChar
    if ds = [] then none
    else parseExpPart (acc ++ '.' :: ds) (r.dropWhile isDigitChar)
  | _ => parseExpPart acc s

/-- A JSON number lexeme starting at `s` (which begins with `-` or a digit),
and the rest of the input. -/
def parseNumber (s : List Char) : Option (List Char × List Char) :=
  let sg : List Char × List Char :=
    match s with
    | '-' :: r => (['-'], r)
    | _ => ([], s)
  match sg.2 with
  | '0' :: r => parseFracPart (sg.1 ++ ['0']) r
  | c :: r =>
    if isDigitChar c then
      parseFracPart (sg.1 ++ (c :: r).takeWhile isDigitChar) ((c :: r).dropWhile isDigitChar)
    else none
  | [] => none

/-- Insert key `k` with value `v` into an association list with Python `dict`
assignment semantics: replace in place if present, else append. -/
def insertKV (ms : List (List Char × Json)) (k : List Char) (v : Json) :
    List (List Char × Json) :=
  if ms.any (fun m => decide (m.1 = k)) then
    ms.map (fun m => if m.1 = k then (k, v) else m)
  else ms ++ [(k, v)]

/-- Build a Python dict from parsed members in order (duplicate keys: last
value wins, first position kept). -/
def dictOfPairs (ps : List (List Char × Json)) : List (List Char × Json) :=
  ps.foldl (fun acc kv => insertKV acc kv.1 kv.2) []

/-- Recursive-descent JSON parser.  `mode 0` parses one value (whitespace
already skipped); `mode 1` parses an array tail (`]`, or `,` then more
elements), returned as an `arr` carrier; `mode 2` parses an object tail,
returned as an `obj` carrier of raw members.  `fuel` only bounds recursion
depth; every recursive call consumes at least one input character, so
`input length + 2` fuel is always enough. -/
def parseJ : Nat → Nat → List Char → Option (Json × List Char)
  | 0, _, _ => none
  | fuel + 1, 0, s =>
    match s with
    | [] => none
    | c :: cs =>
      if c = '"' then
        match parseStringBody (cs.length + 1) cs with
        | some (str, rest) => some (Json.str str, rest)
        | none => none
      else if c = '[' then
        match skipWs cs with
        | ']' :: rest => some (Json.arr [], rest)
        | s1 =>
          match parseJ fuel 0 s1 with
          | some (v, rest) =>
            match parseJ fuel 1 (skipWs rest) with
            | some (Json.arr vs, rest2) => some (Json.arr (v :: vs), rest2)
            | _ => none
          | none => none
      else if c = '\x7b' then
        match skipWs cs with
        | '\x7d' :: rest => some (Json.obj [], rest)
        | '"' :: k1 =>
          match parseStringBody (k1.length + 1) k1 with
          | some (key, r1) =>
            match skipWs r1 with
            | ':' :: r2 =>
              match parseJ fuel 0 (skipWs r2) with
              | some (v, r3) =>
                match parseJ fuel 2 (skipWs r3) with
                | some (Json.obj ms, r4) =>
                  some (Json.obj (dictOfPairs ((key, v) :: ms)), r4)
                | _ => none
              | none => none
            | _ => none
          | none => none
        | _ => none
      else if startsWithList "null".toList s then some (Json.null, s.drop 4)
      else if startsWithList "true".toList s then some (Json.bool true, s.drop 4)
      else if startsWithList "false".toList s then some (Json.bool false, s.drop 5)
      else if c = '-' || isDigitChar c then
        match parseNumber s with
        | some (lx, rest) => some (Json.num lx, rest)
        | none => none
      else none
  | fuel + 1, 1, s =>
    match s with
    | ']' :: rest => some (Json.arr [], rest)
    | ',' :: cs =>
      match parseJ fuel 0 (skipWs cs) with
      | some (v, rest) =>
        match parseJ fuel 1 (skipWs rest) with
        | some (Json.arr vs, rest2) => some (Json.arr (v :: vs), rest2)
        | _ => none
      | none => none
    | _ => none
  | fuel + 1, 2, s =>
    match s with
    | '\x7d' :: rest => some (Json.obj [], rest)
    | ',' :: cs =>
      match skipWs cs with
      | '"' :: k1 =>
        match parseStringBody (k1.length + 1) k1 with
        | some (key, r1) =>
          match skipWs r1 with
          | ':' :: r2 =>
            match parseJ fuel 0 (skipWs r2) with
            | some (v, r3) =>
              match parseJ fuel 2 (skipWs r3) with
              | some (Json.obj ms, r4) => some (Json.obj ((key, v) :: ms), r4)
              | _ => none
            | none => none
          | _ => none
        | none => none
      | _ => none
    | _ => none
  | _ + 1, _ + 3, _ => none

/-- `json.loads`: parse one JSON document, requiring the whole input to be
consumed (up to surrounding whitespace); `none` is a `JSONDecodeError`. -/
def json_loads (s : List Char) : Option Json :=
  match parseJ (s.length + 2) 0 (skipWs s) with
  | some (v, rest) => if skipWs rest = [] then some v else none
  | none => none

/-- Value of key `k` in an association list (keys are unique after
`dictOfPairs`, so first match suffices). -/
def findVal (ms : List (List Char × Json)) (k : List Char) : Option Json :=
  match ms with
  | [] => none
  | m :: t => if m.1 = k then some m.2 else findVal t k

/-- Python `parsed[k]` on an arbitrary parsed JSON value: `some` only when
the value is a dict containing key `k` (otherwise Python raises
`TypeError`/`KeyError`). -/
def jsonGet (j : Json) (k : List Char) : Option Json :=
  match j with
  | Json.obj ms => findVal ms k
  | _ => none

/-! ## Prompts

The two prompt templates are carried verbatim (literal braces written as
escapes), and `TEMPLATE.format(...)` is modelled by `pyFormat`, Python's
actual field-parsing semantics — on `SUMMARY_PROMPT`, whose JSON-schema
braces are single (not doubled), it raises `KeyError`. -/

def SUMMARY_PROMPT_PRE : List Char :=
  ("\nYou are a professional news summarizer.\n\nYour task is to summarize a BBC News article into a concise, neutral,\nobjective news brief in **120–180 words**.\n\nRules:\n- Maintain a factual, impartial tone.\n- Do not add opinions or invented details.\n- Do not add sentences like \"This article says\".\n- Avoid filler or meta commentary.\n- Focus on the key facts and major developments.\n- No emojis.\n- No hallucination.\n- Output MUST be valid JSON.\n\nJSON schema to produce:\n\n\x7b\n  \"title\": \"<string>\",\n  \"summary\": \"<string>\",\n  \"key_points\": [\"point1\", \"point2\", \"point3\"],\n  \"category\": \"<politics | world | business | tech | science | health | uk | europe | other>\"\n\x7d\n\nArticle text:\n\"\"\"").toList

def SUMMARY_PROMPT_POST : List Char := ("\"\"\"\n").toList

def CATEGORY_PROMPT_PRE : List Char :=
  ("\nClassify this article into exactly one category from:\n\npolitics, world, business, tech, science, health, uk, europe, other.\n\nTitle: \"").toList

def CATEGORY_PROMPT_MID : List Char := ("\"\nSummary: \"").toList

def CATEGORY_PROMPT_POST : List Char := ("\"\n\nReturn ONLY the category word.\n").toList

/-- The full `CATEGORY_PROMPT` template exactly as the source holds it:
the `\x7btitle\x7d` and `\x7bsummary\x7d` placeholders surrounded by the
literal text (which contains no other braces). -/
def CATEGORY_PROMPT : List Char :=
  CATEGORY_PROMPT_PRE ++ ("\x7btitle\x7d").toList ++ CATEGORY_PROMPT_MID ++
    ("\x7bsummary\x7d").toList ++ CATEGORY_PROMPT_POST

/-- The full `SUMMARY_PROMPT` template exactly as the source holds it: the
`\x7barticle_text\x7d` placeholder surrounded by the literal text, whose
JSON-schema braces are single (not doubled). -/
def SUMMARY_PROMPT : List Char :=
  SUMMARY_PROMPT_PRE ++ ("\x7barticle_text\x7d").toList ++ SUMMARY_PROMPT_POST

def notFieldEnd (c : Char) : Bool := !(c = ':' || c = '!' || c = '\x7d')

/-- Keyword-argument lookup for `pyFormat`. -/
def findKw (kwargs : List (List Char × List Char)) (k : List Char) : Option (List Char) :=
  match kwargs with
  | [] => none
  | kv :: t => if kv.1 = k then some kv.2 else findKw t k

/-- Python's `str.format` semantics on a template, with keyword arguments:
`\x7b\x7b`/`\x7d\x7d` are literal braces, `\x7b` opens a replacement field
whose name runs to `:`, `!` or `\x7d`, an unknown name raises `KeyError`,
and a bare `\x7d` raises `ValueError`.  Only the plain `\x7bname\x7d` field
form (the only one this repository uses) is rendered; `fuel` is the
template length. -/
def pyFormatScan (kwargs : List (List Char × List Char)) :
    Nat → List Char → Except (List Char) (List Char)
  | 0, _ => Except.error ("format fuel exhausted").toList
  | _ + 1, [] => Except.ok []
  | fuel + 1, c :: rest =>
    if c = '\x7b' then
      match rest with
      | '\x7b' :: r2 => (pyFormatScan kwargs fuel r2).map (fun t => '\x7b' :: t)
      | _ =>
        match findKw kwargs (rest.takeWhile notFieldEnd) with
        | none =>
          Except.error (("KeyError: ").toList ++ rest.takeWhile notFieldEnd)
        | some v =>
          match rest.dropWhile notFieldEnd with
          | '\x7d' :: r2 => (pyFormatScan kwargs fuel r2).map (fun t => v ++ t)
          | _ => Except.error ("unsupported format spec").toList
    else if c = '\x7d' then
      match rest with
      | '\x7d' :: r2 => (pyFormatScan kwargs fuel r2).map (fun t => '\x7d' :: t)
      | _ => Except.error ("ValueError: single closing brace").toList
    else (pyFormatScan kwargs fuel rest).map (fun t => c :: t)

/-- `template.format(**kwargs)`: `Except.error` is a raised exception. -/
def pyFormat (kwargs : List (List Char × List Char)) (template : List Char) :
    Except (List Char) (List Char) :=
  pyFormatScan kwargs (template.length + 1) template

/-- The brace-free text of `SUMMARY_PROMPT` before its first `\x7b` — the
opening brace of the literal JSON schema. -/
def SUMMARY_PROMPT_LIT : List Char :=
  ("\nYou are a professional news summarizer.\n\nYour task is to summarize a BBC News article into a concise, neutral,\nobjective news brief in **120–180 words**.\n\nRules:\n- Maintain a factual, impartial tone.\n- Do not add opinions or invented details.\n- Do not add sentences like \"This article says\".\n- Avoid filler or meta commentary.\n- Focus on the key facts and major developments.\n- No emojis.\n- No hallucination.\n- Output MUST be valid JSON.\n\nJSON schema to produce:\n\n").toList

/-- Everything of `SUMMARY_PROMPT` after the schema's opening brace. -/
def SUMMARY_PROMPT_SCHEMA_TAIL : List Char :=
  ("\n  \"title\": \"<string>\",\n  \"summary\": \"<string>\",\n  \"key_points\": [\"point1\", \"point2\", \"point3\"],\n  \"category\": \"<politics | world | business | tech | science | health | uk | europe | other>\"\n\x7d\n\nArticle text:\n\"\"\"").toList
    ++ ("\x7barticle_text\x7d").toList ++ SUMMARY_PROMPT_POST

/-- The `KeyError` payload that `pyFormat` produces on `SUMMARY_PROMPT`:
the schema's first field name. -/
def keyErrTitle : List Char :=
  ("KeyError: ").toList ++ ("\n  \"title\"").toList

/-- Python `str()` of a parsed JSON value, as used by `str.format` when a
non-string value is interpolated (`repr`-style rendering of containers,
bounded by the value's size, which dominates its depth). -/
def reprJF : Nat → Json → List Char
  | 0, _ => []
  | fuel + 1, j =>
    match j with
    | Json.null => "None".toList
    | Json.bool true => "True".toList
    | Json.bool false => "False".toList
    | Json.num lx => lx
    | Json.str s => '\x27' :: (s ++ ['\x27'])
    | Json.arr es => '[' :: (pyJoin ", ".toList (es.map (reprJF fuel)) ++ [']'])
    | Json.obj ms =>
      '\x7b' :: (pyJoin ", ".toList
        (ms.map (fun m => ('\x27' :: (m.1 ++ ['\x27'])) ++ ": ".toList ++ reprJF fuel m.2))
        ++ ['\x7d'])

/-- Python `str()` of a parsed JSON value: the string itself for strings,
`repr`-style rendering otherwise.  Container rendering is modelled up to a
fixed large nesting depth (every property proved below treats prompt text as
opaque, so the rendering never influences a claim). -/
def pyStr (j : Json) : List Char :=
  match j with
  | Json.str s => s
  | _ => reprJF 1000000 j

/-! ## The summarization pipeline -/

/-- The remote generation service: response text of the backing
`generate_content` call for a given prompt at a given attempt number
(`none` = the attempt raised). -/
abbrev GenFun : Type := List Char → Nat → Option (List Char)

def kTitle : List Char := "title".toList
def kSummary : List Char := "summary".toList
def kCategory : List Char := "category".toList
def kArticleText : List Char := "article_text".toList

/-- One iteration of the per-chunk loop in `summarize_article`: build the
chunk prompt with `SUMMARY_PROMPT.format(article_text=chunk)` — which is
outside the loop's `try` and raises if `pyFormat` errors — then call
`call_gemini`, skip falsy responses, parse the response as JSON and extract
its `"summary"` field, skipping the chunk on any parse/lookup failure (the
loop's `except Exception`).  `Except.ok none` = chunk skipped, `Except.ok
(some v)` = `v` appended to `chunk_summaries`. -/
def chunkStep (gen : GenFun) (chunk : List Char) :
    Except (List Char) (Option Json) :=
  match pyFormat [(kArticleText, chunk)] SUMMARY_PROMPT with
  | Except.error e => Except.error e
  | Except.ok prompt =>
    Except.ok
      (match (call_gemini (gen prompt)).1 with
       | none => none
       | some response_text =>
         if response_text = [] then none
         else
           match json_loads response_text with
           | none => none
           | some parsed => jsonGet parsed kSummary)

/-- The per-chunk loop: build `chunk_summaries` in chunk order, propagating
an uncaught exception from any iteration; `acc` holds the collected values
in reverse. -/
def collectPartials (gen : GenFun) :
    List (List Char) → List Json → Except (List Char) (List Json)
  | [], acc => Except.ok acc.reverse
  | chunk :: rest, acc =>
    match chunkStep gen chunk with
    | Except.error e => Except.error e
    | Except.ok none => collectPartials gen rest acc
    | Except.ok (some v) => collectPartials gen rest (v :: acc)

/-- `"\n".join` succeeds only when all collected values are strings
(otherwise Python raises `TypeError`). -/
def allStrings : List Json → Option (List (List Char))
  | [] => some []
  | Json.str s :: t => (allStrings t).map (fun r => s :: r)
  | _ :: _ => none

/-- `final_json["category"] = category.strip().lower() if category else "other"`:
the category value attached to the final record from the classifier call's
result. -/
def classifyCategory (resp : Option (List Char)) : List Char :=
  match resp with
  | none => "other".toList
  | some c => if c = [] then "other".toList else pyLower (pyStrip c)

/-- Steps 2 and 3 of `summarize_article` (merge prompt construction and
call, final JSON parse, category classification), given a non-empty
`chunk_summaries` list.  Both `format` calls go through `pyFormat`;
`Except.error` marks an uncaught Python exception, `Except.ok none` a
`return None`. -/
def mergeAndClassify (gen : GenFun) (chunk_summaries : List Json) :
    Except (List Char) (Option Json) :=
  match allStrings chunk_summaries with
  | none => Except.error "TypeError: sequence item expected str instance".toList
  | some strs =>
    match pyFormat [(kArticleText, pyJoin ['\n'] strs)] SUMMARY_PROMPT with
    | Except.error e => Except.error e
    | Except.ok final_prompt =>
      match (call_gemini (gen final_prompt)).1 with
      | none => Except.ok none
      | some final_output =>
        if final_output = [] then Except.ok none
        else
          match json_loads final_output with
          | none => Except.ok none
          | some final_json =>
            match final_json with
            | Json.obj ms =>
              match findVal ms kTitle, findVal ms kSummary with
              | some tv, some sv =>
                match pyFormat [(kTitle, pyStr tv), (kSummary, pyStr sv)]
                    CATEGORY_PROMPT with
                | Except.error e => Except.error e
                | Except.ok cat_prompt =>
                  Except.ok (some (Json.obj (insertKV ms kCategory (Json.str
                    (classifyCategory ((call_gemini (gen cat_prompt)).1))))))
              | _, _ => Except.error "KeyError".toList
            | _ => Except.error "TypeError: not a dict".toList

/-- The text handed to chunking: the cleaned article text, with the
short-article note appended when it has fewer than 80 words. -/
def engineText (article_text : List Char) : List Char :=
  if (pyWords (clean_article_text article_text)).length < 80 then
    clean_article_text article_text ++
      "\n(Note: Article is short; summary may be limited.)".toList
  else clean_article_text article_text

/-- `summarize_article` after text preparation: chunk, run the per-chunk
loop, return `None` if it collected nothing, else merge and classify; an
exception raised by the loop propagates. -/
def summarizeCore (gen : GenFun) (prepared : List Char) :
    Except (List Char) (Option Json) :=
  match collectPartials gen (chunk_text prepared) [] with
  | Except.error e => Except.error e
  | Except.ok [] => Except.ok none
  | Except.ok cs => mergeAndClassify gen cs

/-- `summarize_article` from `main.py`.  The `title` parameter is accepted
(as in the source) but never read by the function body. -/
def summarize_article (gen : GenFun) (article_text title : List Char) :
    Except (List Char) (Option Json) :=
  summarizeCore gen (engineText article_text)

/-! ## Concrete inputs used by individual claims -/

/-- A 601-word article body: its normalized text fills two chunks. -/
def c5text : List Char := pyJoin [' '] (List.replicate 601 ['a'])

/-- A 50-word article body: above the spec's ≈40-word threshold but below
the code's 80-word threshold. -/
def c9text : List Char := pyJoin [' '] (List.replicate 50 ['w'])

/-! ## Helper lemmas: stripping -/

theorem dropWhile_dropWhile {α : Type} (p : α → Bool) (l : List α) :
    (l.dropWhile p).dropWhile p = l.dropWhile p := by
  induction l with
  | nil => rfl
  | cons c cs ih =>
    by_cases h : p c
    · simp [List.dropWhile_cons, h, ih]
    · simp [List.dropWhile_cons, h]

theorem dropWhile_eq_self_left {α : Type} (p : α → Bool) {B C A : List α}
    (hA : A = B ++ C) (h : A.dropWhile p = A) : B.dropWhile p = B := by
  cases B with
  | nil => rfl
  | cons b B' =>
    subst hA
    rw [List.cons_append] at h
    rw [List.dropWhile_cons] at h ⊢
    split at h
    · have hlen : (List.dropWhile p (B' ++ C)).length ≤ (B' ++ C).length :=
        (List.dropWhile_sublist p).length_le
      rw [h] at hlen
      simp at hlen
    · rename_i hb
      rw [if_neg hb]

theorem pyStrip_idem (l : List Char) : pyStrip (pyStrip l) = pyStrip l := by
  have h1 : (l.dropWhile isPyWs).dropWhile isPyWs = l.dropWhile isPyWs :=
    dropWhile_dropWhile isPyWs l
  have h2 : l.dropWhile isPyWs =
      pyStrip l ++ ((l.dropWhile isPyWs).reverse.takeWhile isPyWs).reverse := by
    conv_lhs => rw [← List.reverse_reverse (l.dropWhile isPyWs),
      ← List.takeWhile_append_dropWhile isPyWs (l.dropWhile isPyWs).reverse]
    rw [List.reverse_append]
    rfl
  have h3 : (pyStrip l).dropWhile isPyWs = pyStrip l :=
    dropWhile_eq_self_left isPyWs h2 h1
  have e1 : pyStrip (pyStrip l) =
      (((pyStrip l).dropWhile isPyWs).reverse.dropWhile isPyWs).reverse := rfl
  have e2 : pyStrip l = ((l.dropWhile isPyWs).reverse.dropWhile isPyWs).reverse := rfl
  rw [e1, h3]
  conv_lhs => rw [e2]
  rw [List.reverse_reverse, dropWhile_dropWhile]
  exact e2.symm

theorem mem_of_mem_pyStrip {x : Char} {l : List Char} (h : x ∈ pyStrip l) : x ∈ l := by
  unfold pyStrip at h
  rw [List.mem_reverse] at h
  have h1 := (List.dropWhile_sublist isPyWs).subset h
  rw [List.mem_reverse] at h1
  exact (List.dropWhile_sublist isPyWs).subset h1

/-! ## Helper lemmas: splitting and joining on newlines -/

theorem pySplitOn_cons_eq (sep c : Char) (cs hd : List Char) (tl : List (List Char))
    (h : pySplitOn sep cs = hd :: tl) :
    pySplitOn sep (c :: cs) = if c = sep then [] :: hd :: tl else (c :: hd) :: tl := by
  simp only [pySplitOn, h]

theorem pySplitOn_ne_nil (sep : Char) (l : List Char) : pySplitOn sep l ≠ [] := by
  induction l with
  | nil => simp [pySplitOn]
  | cons c cs ih =>
    cases h : pySplitOn sep cs with
    | nil => exact absurd h ih
    | cons hd tl =>
      rw [pySplitOn_cons_eq sep c cs hd tl h]
      split <;> simp

theorem not_mem_of_mem_pySplitOn (sep : Char) (l : List Char) :
    ∀ part ∈ pySplitOn sep l, sep ∉ part := by
  induction l with
  | nil =>
    intro part hp
    simp [pySplitOn] at hp
    simp [hp]
  | cons c cs ih =>
    intro part hp
    cases h : pySplitOn sep cs with
    | nil => exact absurd h (pySplitOn_ne_nil sep cs)
    | cons hd tl =>
      rw [pySplitOn_cons_eq sep c cs hd tl h] at hp
      have hmemcs : ∀ q ∈ hd :: tl, sep ∉ q := fun q hq => ih q (h ▸ hq)
      by_cases hc : c = sep
      · rw [if_pos hc] at hp
        rcases List.mem_cons.mp hp with rfl | hp2
        · simp
        · exact hmemcs part hp2
      · rw [if_neg hc] at hp
        rcases List.mem_cons.mp hp with rfl | hp2
        · intro hmem
          rcases List.mem_cons.mp hmem with rfl | hmem2
          · exact hc rfl
          · exact hmemcs hd (List.mem_cons_self hd tl) hmem2
        · exact hmemcs part (List.mem_cons_of_mem hd hp2)

theorem pyJoin_cons (s x : List Char) (r : List (List Char)) (hr : r ≠ []) :
    pyJoin s (x :: r) = x ++ s ++ pyJoin s r := by
  cases r with
  | nil => exact absurd rfl hr
  | cons y t => rfl

theorem pyJoin_pySplitOn (sep : Char) (l : List Char) :
    pyJoin [sep] (pySplitOn sep l) = l := by
  induction l with
  | nil => rfl
  | cons c cs ih =>
    cases h : pySplitOn sep cs with
    | nil => exact absurd h (pySplitOn_ne_nil sep cs)
    | cons hd tl =>
      rw [h] at ih
      rw [pySplitOn_cons_eq sep c cs hd tl h]
      by_cases hc : c = sep
      · rw [if_pos hc, pyJoin_cons _ _ _ (by simp), ih, hc]
        simp
      · rw [if_neg hc]
        cases tl with
        | nil =>
          show c :: hd = c :: cs
          rw [show hd = cs from ih]
        | cons z t2 =>
          rw [pyJoin_cons _ _ _ (by simp)] at ih ⊢
          rw [← ih]
          simp

theorem pySplitOn_no_sep (sep : Char) (x : List Char) (hx : sep ∉ x) :
    pySplitOn sep x = [x] := by
  induction x with
  | nil => rfl
  | cons c cs ih =>
    have hc : ¬(c = sep) := fun h => hx (h ▸ List.mem_cons_self c cs)
    have hcs : sep ∉ cs := fun h => hx (List.mem_cons_of_mem c h)
    rw [pySplitOn_cons_eq sep c cs cs [] (ih hcs), if_neg hc]

theorem pySplitOn_append_sep (sep : Char) (x rest : List Char) (hx : sep ∉ x) :
    pySplitOn sep (x ++ sep :: rest) = x :: pySplitOn sep rest := by
  induction x with
  | nil =>
    cases h : pySplitOn sep rest with
    | nil => exact absurd h (pySplitOn_ne_nil sep rest)
    | cons hd tl =>
      rw [List.nil_append, pySplitOn_cons_eq sep sep rest hd tl h, if_pos rfl]
  | cons c x' ih =>
    have hc : ¬(c = sep) := fun h => hx (h ▸ List.mem_cons_self c x')
    have hx' : sep ∉ x' := fun h => hx (List.mem_cons_of_mem c h)
    rw [List.cons_append,
      pySplitOn_cons_eq sep c (x' ++ sep :: rest) x' (pySplitOn sep rest) (ih hx'),
      if_neg hc]

theorem pySplitOn_pyJoin (sep : Char) (ps : List (List Char)) (hne : ps ≠ [])
    (hparts : ∀ p ∈ ps, sep ∉ p) : pySplitOn sep (pyJoin [sep] ps) = ps := by
  induction ps with
  | nil => exact absurd rfl hne
  | cons x t ih =>
    cases t with
    | nil => exact pySplitOn_no_sep sep x (hparts x (List.mem_cons_self x []))
    | cons y t2 =>
      rw [pyJoin_cons [sep] x (y :: t2) (by simp)]
      have hassoc : x ++ [sep] ++ pyJoin [sep] (y :: t2) =
          x ++ sep :: pyJoin [sep] (y :: t2) := by simp
      rw [hassoc, pySplitOn_append_sep sep x _ (hparts x (List.mem_cons_self x _))]
      rw [ih (by simp) (fun p hp => hparts p (List.mem_cons_of_mem x hp))]

/-! ## Helper lemmas: first-occurrence dedup -/

theorem dedupKeepFirst_sublist {α : Type} [DecidableEq α] (seen : List α) (l : List α) :
    List.Sublist (dedupKeepFirst seen l) l := by
  induction l generalizing seen with
  | nil => simp [dedupKeepFirst]
  | cons x xs ih =>
    simp only [dedupKeepFirst]
    split
    · exact (ih seen).trans (List.sublist_cons_self x xs)
    · exact List.Sublist.cons₂ x (ih (x :: seen))

theorem mem_dedupKeepFirst {α : Type} [DecidableEq α] (seen l : List α) (y : α) :
    y ∈ dedupKeepFirst seen l ↔ y ∈ l ∧ y ∉ seen := by
  induction l generalizing seen with
  | nil => simp [dedupKeepFirst]
  | cons x xs ih =>
    simp only [dedupKeepFirst]
    split
    · rename_i hx
      rw [ih seen]
      constructor
      · rintro ⟨h1, h2⟩
        exact ⟨List.mem_cons_of_mem x h1, h2⟩
      · rintro ⟨h1, h2⟩
        rcases List.mem_cons.mp h1 with rfl | h1b
        · exact absurd hx h2
        · exact ⟨h1b, h2⟩
    · rename_i hx
      rw [List.mem_cons, ih (x :: seen)]
      constructor
      · rintro (rfl | ⟨h1, h2⟩)
        · exact ⟨List.mem_cons_self _ xs, hx⟩
        · exact ⟨List.mem_cons_of_mem x h1, fun hs => h2 (List.mem_cons_of_mem x hs)⟩
      · rintro ⟨h1, h2⟩
        rcases List.mem_cons.mp h1 with rfl | h1b
        · exact Or.inl rfl
        · by_cases hyx : y = x
          · exact Or.inl hyx
          · refine Or.inr ⟨h1b, fun hs => ?_⟩
            rcases List.mem_cons.mp hs with h | h
            · exact hyx h
            · exact h2 h

theorem dedupKeepFirst_nodup {α : Type} [DecidableEq α] (seen l : List α) :
    (dedupKeepFirst seen l).Nodup := by
  induction l generalizing seen with
  | nil => simp [dedupKeepFirst]
  | cons x xs ih =>
    simp only [dedupKeepFirst]
    split
    · exact ih seen
    · refine List.nodup_cons.mpr ⟨fun hmem => ?_, ih (x :: seen)⟩
      exact ((mem_dedupKeepFirst _ _ _).mp hmem).2 (List.mem_cons_self x seen)

theorem dedupKeepFirst_eq_self {α : Type} [DecidableEq α] (seen l : List α)
    (hl : l.Nodup) (hd : ∀ x ∈ l, x ∉ seen) : dedupKeepFirst seen l = l := by
  induction l generalizing seen with
  | nil => rfl
  | cons x xs ih =>
    simp only [dedupKeepFirst]
    rw [if_neg (hd x (List.mem_cons_self x xs))]
    congr 1
    refine ih (x :: seen) (List.nodup_cons.mp hl).2 (fun y hy => ?_)
    intro hsn
    rcases List.mem_cons.mp hsn with rfl | h
    · exact (List.nodup_cons.mp hl).1 hy
    · exact hd y (List.mem_cons_of_mem x hy) h

/-! ## Helper lemmas: the line filter of the normalizer -/

theorem processLine_eq_some {l s : List Char} (h : processLine l = some s) :
    s = pyStrip l ∧ s ≠ [] ∧ isTimestamp s = false ∧
    containsSub "Follow BBC".toList s = false ∧
    containsSub "Related Topics".toList s = false := by
  unfold processLine at h
  split_ifs at h with h1 h2 h3
  rcases Option.some.inj h with rfl
  have h2f : isTimestamp (pyStrip l) = false := by
    revert h2
    cases isTimestamp (pyStrip l) <;> simp
  have h3f : (containsSub "Follow BBC".toList (pyStrip l) ||
      containsSub "Related Topics".toList (pyStrip l)) = false := by
    revert h3
    cases hq : (containsSub "Follow BBC".toList (pyStrip l) ||
      containsSub "Related Topics".toList (pyStrip l)) <;> simp
  rcases Bool.or_eq_false_iff.mp h3f with ⟨h3a, h3b⟩
  exact ⟨rfl, h1, h2f, h3a, h3b⟩

theorem processLine_fixed {s : List Char} (hstrip : pyStrip s = s) (h1 : s ≠ [])
    (h2 : isTimestamp s = false) (h3 : containsSub "Follow BBC".toList s = false)
    (h4 : containsSub "Related Topics".toList s = false) :
    processLine s = some s := by
  unfold processLine
  rw [hstrip, if_neg h1, if_neg (by rw [h2]; simp), if_neg (by rw [h3, h4]; simp)]

theorem mem_cleanLines {text s : List Char} (h : s ∈ cleanLines text) :
    processLine s = some s ∧ '\n' ∉ s := by
  obtain ⟨l0, hl0, hp⟩ := List.mem_filterMap.mp h
  obtain ⟨hs, h1, h2, h3, h4⟩ := processLine_eq_some hp
  refine ⟨processLine_fixed (by rw [hs, pyStrip_idem]) h1 h2 h3 h4, fun hmem => ?_⟩
  rw [hs] at hmem
  exact not_mem_of_mem_pySplitOn '\n' text l0 hl0 (mem_of_mem_pyStrip hmem)

theorem filterMap_eq_self {α : Type} {f : α → Option α} {m : List α}
    (h : ∀ s ∈ m, f s = some s) : m.filterMap f = m := by
  induction m with
  | nil => rfl
  | cons a t ih =>
    rw [List.filterMap_cons_some (h a (List.mem_cons_self a t)),
      ih (fun s hs => h s (List.mem_cons_of_mem a hs))]

theorem cleanLines_pyJoin (F : List (List Char)) (hne : F ≠ [])
    (hmem : ∀ s ∈ F, processLine s = some s ∧ '\n' ∉ s) :
    cleanLines (pyJoin ['\n'] F) = F := by
  unfold cleanLines
  rw [pySplitOn_pyJoin '\n' F hne (fun p hp => (hmem p hp).2)]
  exact filterMap_eq_self (fun s hs => (hmem s hs).1)

/-! ## C7 and C8 -/

/-- C7: the normalizer is idempotent — `clean_article_text` applied to its
own output returns that output unchanged, for every input string. -/
theorem clean_article_text_idempotent (x : List Char) :
    clean_article_text (clean_article_text x) = clean_article_text x := by
  by_cases hF : dedupKeepFirst [] (cleanLines x) = []
  · unfold clean_article_text
    rw [hF]
    rfl
  · have hmem : ∀ s ∈ dedupKeepFirst [] (cleanLines x),
        processLine s = some s ∧ '\n' ∉ s :=
      fun s hs => mem_cleanLines ((dedupKeepFirst_sublist [] (cleanLines x)).subset hs)
    show clean_article_text (pyJoin ['\n'] (dedupKeepFirst [] (cleanLines x))) = _
    unfold clean_article_text
    rw [cleanLines_pyJoin _ hF hmem,
      dedupKeepFirst_eq_self [] _ (dedupKeepFirst_nodup [] _) (by simp)]

/-- C8: deduplication in the normalizer preserves first-occurrence order —
after the line filtering, the surviving lines are a duplicate-free ordered
sublist of the filtered lines containing every filtered line; concretely,
lines `A,B,A,C` yield `A,B,C`. -/
theorem clean_dedup_first_occurrence_order :
    (∀ a : List Char,
      (dedupKeepFirst [] (cleanLines a)).Nodup ∧
      List.Sublist (dedupKeepFirst [] (cleanLines a)) (cleanLines a) ∧
      (∀ x, x ∈ dedupKeepFirst [] (cleanLines a) ↔ x ∈ cleanLines a)) ∧
    clean_article_text "A\nB\nA\nC".toList = "A\nB\nC".toList := by
  refine ⟨fun a => ⟨dedupKeepFirst_nodup [] _, dedupKeepFirst_sublist [] _,
    fun x => by rw [mem_dedupKeepFirst]; simp⟩, by rfl⟩

/-! ## Helper lemmas: words and chunking -/

theorem pyWordsAux_words_ok (l : List Char) :
    ∀ acc : List Char, (∀ c ∈ acc, isPyWs c = false) →
      ∀ w ∈ pyWordsAux acc l, w ≠ [] ∧ ∀ c ∈ w, isPyWs c = false := by
  induction l with
  | nil =>
    intro acc hacc w hw
    simp only [pyWordsAux] at hw
    split at hw
    · simp at hw
    · rename_i hne
      rcases List.mem_cons.mp hw with rfl | habs
      · exact ⟨by simpa using hne, fun c hc => hacc c (List.mem_reverse.mp hc)⟩
      · simp at habs
  | cons c cs ih =>
    intro acc hacc w hw
    simp only [pyWordsAux] at hw
    split at hw
    · split at hw
      · exact ih [] (by simp) w hw
      · rename_i hne
        rcases List.mem_cons.mp hw with rfl | hw2
        · exact ⟨by simpa using hne, fun d hd => hacc d (List.mem_reverse.mp hd)⟩
        · exact ih [] (by simp) w hw2
    · rename_i hws
      refine ih (c :: acc) (fun d hd => ?_) w hw
      rcases List.mem_cons.mp hd with rfl | hd2
      · revert hws
        cases isPyWs d <;> simp
      · exact hacc d hd2

theorem pyWordsAux_append_word (w : List Char) (hw : ∀ c ∈ w, isPyWs c = false) :
    ∀ (acc r : List Char), pyWordsAux acc (w ++ r) = pyWordsAux (w.reverse ++ acc) r := by
  induction w with
  | nil => intro acc r; simp
  | cons c w' ih =>
    intro acc r
    rw [List.cons_append]
    simp only [pyWordsAux]
    rw [if_neg (by simp [hw c (List.mem_cons_self c w')])]
    rw [ih (fun d hd => hw d (List.mem_cons_of_mem c hd)) (c :: acc) r]
    congr 1
    simp

theorem pyWords_pyJoin_space (ws : List (List Char))
    (h : ∀ w ∈ ws, w ≠ [] ∧ ∀ c ∈ w, isPyWs c = false) :
    pyWords (pyJoin [' '] ws) = ws := by
  induction ws with
  | nil => rfl
  | cons w t ih =>
    have hw := h w (List.mem_cons_self w t)
    have hrev : ¬(w.reverse ++ ([] : List Char) = []) := by simpa using hw.1
    cases t with
    | nil =>
      show pyWordsAux [] (pyJoin [' '] [w]) = [w]
      have e : pyJoin [' '] [w] = w ++ [] := by simp [pyJoin]
      rw [e, pyWordsAux_append_word w hw.2 [] []]
      simp only [pyWordsAux]
      rw [if_neg hrev]
      simp
    | cons y t2 =>
      have ihr := ih (fun q hq => h q (List.mem_cons_of_mem w hq))
      show pyWordsAux [] (pyJoin [' '] (w :: y :: t2)) = w :: y :: t2
      rw [pyJoin_cons [' '] w (y :: t2) (by simp)]
      have e : w ++ [' '] ++ pyJoin [' '] (y :: t2)
          = w ++ (' ' :: pyJoin [' '] (y :: t2)) := by simp
      rw [e, pyWordsAux_append_word w hw.2 [] _]
      simp only [pyWordsAux]
      rw [if_pos (show isPyWs ' ' = true from rfl), if_neg hrev]
      have : pyWordsAux [] (pyJoin [' '] (y :: t2)) = y :: t2 := ihr
      rw [this]
      simp

theorem chunkGroups_join {α : Type} (n : Nat) (hn : 0 < n) :
    ∀ (fuel : Nat) (l : List α), l.length ≤ fuel → (chunkGroups n fuel l).flatten = l := by
  intro fuel
  induction fuel with
  | zero =>
    intro l hl
    cases l with
    | nil => rfl
    | cons a t => simp at hl
  | succ f ih =>
    intro l hl
    cases l with
    | nil => rfl
    | cons a t =>
      simp only [chunkGroups, List.flatten_cons]
      rw [ih ((a :: t).drop n) (by simp at hl ⊢; omega)]
      exact List.take_append_drop n (a :: t)

theorem chunkGroups_length_le {α : Type} (n : Nat) :
    ∀ (fuel : Nat) (l : List α), ∀ g ∈ chunkGroups n fuel l, g.length ≤ n := by
  intro fuel
  induction fuel with
  | zero =>
    intro l g hg
    cases l with
    | nil => simp [chunkGroups] at hg
    | cons a t => simp [chunkGroups] at hg
  | succ f ih =>
    intro l g hg
    cases l with
    | nil => simp [chunkGroups] at hg
    | cons a t =>
      simp only [chunkGroups] at hg
      rcases List.mem_cons.mp hg with rfl | hg2
      · simp [List.length_take]
      · exact ih _ g hg2

theorem chunkGroups_dropLast_length {α : Type} (n : Nat) :
    ∀ (fuel : Nat) (l : List α), ∀ g ∈ (chunkGroups n fuel l).dropLast, g.length = n := by
  intro fuel
  induction fuel with
  | zero =>
    intro l g hg
    cases l with
    | nil => simp [chunkGroups] at hg
    | cons a t => simp [chunkGroups] at hg
  | succ f ih =>
    intro l g hg
    cases l with
    | nil => simp [chunkGroups] at hg
    | cons a t =>
      simp only [chunkGroups] at hg
      cases hrest : chunkGroups n f ((a :: t).drop n) with
      | nil => rw [hrest] at hg; simp at hg
      | cons g0 gs =>
        rw [hrest, List.dropLast_cons₂] at hg
        rcases List.mem_cons.mp hg with rfl | hg2
        · have hdne : (a :: t).drop n ≠ [] := by
            intro he
            rw [he] at hrest
            simp [chunkGroups] at hrest
          have hlt : n < t.length + 1 := by
            by_contra hge
            push_neg at hge
            exact hdne (List.drop_eq_nil_of_le (by simpa using hge))
          simp [List.length_take]
          omega
        · exact ih _ g (hrest ▸ hg2)

theorem mem_of_mem_chunkGroups {α : Type} (n : Nat) :
    ∀ (fuel : Nat) (l : List α), ∀ g ∈ chunkGroups n fuel l, ∀ x ∈ g, x ∈ l := by
  intro fuel
  induction fuel with
  | zero =>
    intro l g hg
    cases l with
    | nil => simp [chunkGroups] at hg
    | cons a t => simp [chunkGroups] at hg
  | succ f ih =>
    intro l g hg x hx
    cases l with
    | nil => simp [chunkGroups] at hg
    | cons a t =>
      simp only [chunkGroups] at hg
      rcases List.mem_cons.mp hg with rfl | hg2
      · exact List.take_subset n (a :: t) hx
      · exact List.drop_subset n (a :: t) (ih _ g hg2 x hx)

/-! ## C2 -/

/-- C2: chunking round-trip — for every input text and positive bound `n`,
joining the words of all chunks of `chunk_text text n` in order reproduces
the word sequence of the input exactly; every chunk has at most `n` words;
and every chunk except possibly the last has exactly `n` words. -/
theorem chunk_text_round_trip (text : List Char) (n : Nat) (hn : 0 < n) :
    ((chunk_text text n).map pyWords).flatten = pyWords text ∧
    (∀ c ∈ chunk_text text n, (pyWords c).length ≤ n) ∧
    (∀ c ∈ (chunk_text text n).dropLast, (pyWords c).length = n) := by
  have hwords : ∀ w ∈ pyWords text, w ≠ [] ∧ ∀ ch ∈ w, isPyWs ch = false :=
    pyWordsAux_words_ok text [] (by simp)
  have hgrp : ∀ g ∈ chunkGroups n (pyWords text).length (pyWords text),
      pyWords (pyJoin [' '] g) = g := by
    intro g hg
    exact pyWords_pyJoin_space g
      (fun w hw => hwords w (mem_of_mem_chunkGroups n _ _ g hg w hw))
  refine ⟨?_, ?_, ?_⟩
  · unfold chunk_text
    have hmap : List.map (pyWords ∘ pyJoin [' '])
        (chunkGroups n (pyWords text).length (pyWords text))
        = List.map id (chunkGroups n (pyWords text).length (pyWords text)) :=
      List.map_congr_left (fun g hg => hgrp g hg)
    rw [List.map_map, hmap, List.map_id]
    exact chunkGroups_join n hn _ _ (Nat.le_refl _)
  · intro c hc
    unfold chunk_text at hc
    obtain ⟨g, hg, rfl⟩ := List.mem_map.mp hc
    rw [hgrp g hg]
    exact chunkGroups_length_le n _ _ g hg
  · intro c hc
    unfold chunk_text at hc
    rw [← List.map_dropLast] at hc
    obtain ⟨g, hg, rfl⟩ := List.mem_map.mp hc
    rw [hgrp g (List.dropLast_subset _ hg)]
    exact chunkGroups_dropLast_length n _ _ g hg

/-- Witness for C2 at a concrete input: `"a b c d"` with `n = 3` splits into
chunks `"a b c"` and `"d"`. -/
theorem chunk_text_round_trip_witness :
    0 < 3 ∧
    (((chunk_text "a b c d".toList 3).map pyWords).flatten = pyWords "a b c d".toList ∧
    (∀ c ∈ chunk_text "a b c d".toList 3, (pyWords c).length ≤ 3) ∧
    (∀ c ∈ (chunk_text "a b c d".toList 3).dropLast, (pyWords c).length = 3)) :=
  ⟨by decide, chunk_text_round_trip "a b c d".toList 3 (by decide)⟩

/-! ## C3: the retry loop -/

theorem callGeminiFrom_all_fail {α : Type} (genOnce : Nat → Option α)
    (h : ∀ i, genOnce i = none) :
    ∀ (rem attempt : Nat), callGeminiFrom genOnce attempt rem = (none, attempt + rem) := by
  intro rem
  induction rem with
  | zero => intro attempt; simp [callGeminiFrom]
  | succ r ih =>
    intro attempt
    simp only [callGeminiFrom, h attempt]
    rw [ih (attempt + 1)]
    congr 1
    omega

/-- C3: when the backing call fails on every attempt, `call_gemini` with the
configured bound of 4 performs exactly 4 attempts — never more, never
fewer — and returns the failure value `none` instead of raising. -/
theorem call_gemini_retry_bound {α : Type} (genOnce : Nat → Option α)
    (h : ∀ i, genOnce i = none) :
    call_gemini genOnce 4 = (none, 4) := by
  unfold call_gemini
  rw [callGeminiFrom_all_fail genOnce h 4 0]

/-- Witness for C3: the always-failing backing call, concretely. -/
theorem call_gemini_retry_bound_witness :
    call_gemini (fun _ => (none : Option (List Char))) 4 = (none, 4) :=
  call_gemini_retry_bound _ (fun _ => rfl)

/-! ## The format bug: `pyFormat` raises on `SUMMARY_PROMPT` -/

theorem pyFormatScan_append_lit (kwargs : List (List Char × List Char))
    (L : List Char) (hL : ∀ c ∈ L, ¬(c = '\x7b') ∧ ¬(c = '\x7d')) :
    ∀ (fuel : Nat) (rest : List Char),
      pyFormatScan kwargs (fuel + L.length) (L ++ rest)
        = (pyFormatScan kwargs fuel rest).map (fun t => L ++ t) := by
  induction L with
  | nil =>
    intro fuel rest
    show pyFormatScan kwargs (fuel + 0) rest = _
    rw [Nat.add_zero]
    cases pyFormatScan kwargs fuel rest <;> simp [Except.map]
  | cons c L' ih =>
    intro fuel rest
    have hc := hL c (List.mem_cons_self c L')
    have hL' : ∀ d ∈ L', ¬(d = '\x7b') ∧ ¬(d = '\x7d') :=
      fun d hd => hL d (List.mem_cons_of_mem c hd)
    show pyFormatScan kwargs (fuel + (L'.length + 1)) (c :: (L' ++ rest)) = _
    have e : fuel + (L'.length + 1) = (fuel + L'.length) + 1 := by omega
    rw [e]
    simp only [pyFormatScan]
    rw [if_neg hc.1, if_neg hc.2, ih hL' fuel rest]
    cases pyFormatScan kwargs fuel rest <;> simp [Except.map]

theorem pyFormatScan_field_keyerror (kwargs : List (List Char × List Char))
    (fuel : Nat) (rest : List Char) (hhd : ∀ r2, rest ≠ '\x7b' :: r2)
    (hfind : findKw kwargs (rest.takeWhile notFieldEnd) = none) :
    pyFormatScan kwargs (fuel + 1) ('\x7b' :: rest)
      = Except.error (("KeyError: ").toList ++ rest.takeWhile notFieldEnd) := by
  simp only [pyFormatScan]
  rw [if_true, hfind]

set_option maxRecDepth 1000000 in
theorem SUMMARY_PROMPT_split :
    SUMMARY_PROMPT = SUMMARY_PROMPT_LIT ++ '\x7b' :: SUMMARY_PROMPT_SCHEMA_TAIL := by
  rfl

theorem summary_schema_tail_ne (r2 : List Char) :
    SUMMARY_PROMPT_SCHEMA_TAIL ≠ '\x7b' :: r2 := by
  intro h
  have h0 : SUMMARY_PROMPT_SCHEMA_TAIL.head? = some '\n' := by decide
  rw [h, List.head?_cons] at h0
  exact absurd (Option.some.inj h0) (by decide)

theorem summary_schema_field_name :
    SUMMARY_PROMPT_SCHEMA_TAIL.takeWhile notFieldEnd = ("\n  \"title\"").toList := by
  decide

set_option maxRecDepth 1000000 in
/-- `SUMMARY_PROMPT.format(article_text=v)` raises `KeyError` for every
argument `v`: the template's first replacement field is the schema's
un-escaped `\x7b`, whose field name is not a keyword argument. -/
theorem pyFormat_summary_keyerror (v : List Char) :
    pyFormat [(kArticleText, v)] SUMMARY_PROMPT = Except.error keyErrTitle := by
  have hfind : findKw [(kArticleText, v)]
      (SUMMARY_PROMPT_SCHEMA_TAIL.takeWhile notFieldEnd) = none := by
    rw [summary_schema_field_name]
    simp only [findKw]
    rw [if_neg (by decide)]
  have hlit : ∀ c ∈ SUMMARY_PROMPT_LIT, ¬(c = '\x7b') ∧ ¬(c = '\x7d') := by decide
  unfold pyFormat
  rw [SUMMARY_PROMPT_split]
  have hlen : (SUMMARY_PROMPT_LIT ++ '\x7b' :: SUMMARY_PROMPT_SCHEMA_TAIL).length + 1
      = (SUMMARY_PROMPT_SCHEMA_TAIL.length + 1 + 1) + SUMMARY_PROMPT_LIT.length := by
    rw [List.length_append, List.length_cons]
    omega
  rw [hlen,
    pyFormatScan_append_lit [(kArticleText, v)] SUMMARY_PROMPT_LIT hlit
      (SUMMARY_PROMPT_SCHEMA_TAIL.length + 1 + 1) ('\x7b' :: SUMMARY_PROMPT_SCHEMA_TAIL),
    pyFormatScan_field_keyerror [(kArticleText, v)] (SUMMARY_PROMPT_SCHEMA_TAIL.length + 1)
      SUMMARY_PROMPT_SCHEMA_TAIL summary_schema_tail_ne hfind,
    summary_schema_field_name]
  rfl

/-! ## The pipeline raises for every input -/

theorem chunkStep_raises (gen : GenFun) (chunk : List Char) :
    chunkStep gen chunk = Except.error keyErrTitle := by
  unfold chunkStep
  rw [pyFormat_summary_keyerror chunk]

set_option maxRecDepth 1000000 in
theorem collectPartials_raises (gen : GenFun) (c : List Char)
    (cs : List (List Char)) (acc : List Json) :
    collectPartials gen (c :: cs) acc = Except.error keyErrTitle := by
  have h := chunkStep_raises gen c
  simp only [collectPartials, h]

theorem pyWordsAux_ne_nil_acc (l : List Char) :
    ∀ acc : List Char, acc ≠ [] → pyWordsAux acc l ≠ [] := by
  induction l with
  | nil =>
    intro acc h
    simp only [pyWordsAux]
    rw [if_neg h]
    simp
  | cons c cs ih =>
    intro acc h
    simp only [pyWordsAux]
    split
    · simp
    · exact ih (c :: acc) (by simp)

theorem pyWords_ne_nil_of_mem (l : List Char) (c : Char) (hc : c ∈ l)
    (hw : isPyWs c = false) : pyWords l ≠ [] := by
  induction l with
  | nil => cases hc
  | cons d ds ih =>
    show pyWordsAux [] (d :: ds) ≠ []
    simp only [pyWordsAux]
    split
    · rename_i hd
      rw [if_true]
      rcases List.mem_cons.mp hc with rfl | hc2
      · rw [hw] at hd
        cases hd
      · exact ih hc2
    · exact pyWordsAux_ne_nil_acc ds [d] (by simp)

theorem engineText_words_ne_nil (a : List Char) : pyWords (engineText a) ≠ [] := by
  unfold engineText
  split
  · exact pyWords_ne_nil_of_mem _ '('
      (List.mem_append_right _ (by decide)) (by decide)
  · rename_i hge
    intro hnil
    rw [hnil] at hge
    exact hge (by simp)

theorem chunk_text_ne_nil (t : List Char) (h : pyWords t ≠ []) :
    chunk_text t ≠ [] := by
  unfold chunk_text
  cases hw : pyWords t with
  | nil => exact absurd hw h
  | cons w ws =>
    simp only [List.length_cons, chunkGroups]
    simp

/-- The heart of the bug: for every service behavior and every article,
`summarize_article` raises the format `KeyError` — the normalized text is
never empty (the short-article note guarantees at least one chunk), and the
first chunk's prompt construction fails. -/
theorem summarize_raises (gen : GenFun) (a t : List Char) :
    summarize_article gen a t = Except.error keyErrTitle := by
  unfold summarize_article summarizeCore
  cases hc : chunk_text (engineText a) with
  | nil => exact absurd hc (chunk_text_ne_nil _ (engineText_words_ne_nil a))
  | cons c cs => rw [collectPartials_raises gen c cs []]

/-! ## C10 -/

/-- C10: the code, not the claim, is at fault — every iteration of the
chunk loop raises `KeyError` at `SUMMARY_PROMPT.format` before any
generation response exists, so no chunk ever contributes a partial summary
(extracted or raw) and none is ever silently skipped; the collection/skip
logic the claim describes is unreachable. -/
theorem chunk_loop_never_collects (gen : GenFun) (chunk : List Char) :
    chunkStep gen chunk = Except.error keyErrTitle ∧
    ∀ r : Option Json, chunkStep gen chunk ≠ Except.ok r := by
  refine ⟨chunkStep_raises gen chunk, fun r h => ?_⟩
  rw [chunkStep_raises gen chunk] at h
  cases h

/-! ## C6 -/

set_option maxRecDepth 1000000 in
/-- C6: the code, not the claim, is at fault.  The summary prompt template
contains literal JSON-schema braces that are not doubled, so Python's
`str.format` raises `KeyError` with field name `\n  "title"` while building
the very first chunk prompt: for the two-word article `hello world` (below
the 80-word threshold, marker appended) the prompt for its single chunk
cannot even be constructed, and `summarize_article` raises instead of
returning `None` — no generation call is ever made, so trivially all of
them "fail". -/
theorem summary_prompt_format_raises :
    pyFormat
      [("article_text".toList, pyJoin [' '] (pyWords (engineText "hello world".toList)))]
      SUMMARY_PROMPT
      = Except.error (("KeyError: ").toList ++ ("\n  \"title\"").toList) ∧
    (pyWords (clean_article_text "hello world".toList)).length < 80 := by
  refine ⟨by rfl, by decide⟩

/-! ## Helper lemmas: the 601-word scenario text -/

theorem mem_pyJoin {x : Char} (sep : List Char) (ps : List (List Char))
    (h : x ∈ pyJoin sep ps) : x ∈ sep ∨ ∃ p ∈ ps, x ∈ p := by
  induction ps with
  | nil => simp [pyJoin] at h
  | cons w t ih =>
    cases t with
    | nil => exact Or.inr ⟨w, List.mem_cons_self _ _, h⟩
    | cons y t2 =>
      rw [pyJoin_cons _ _ _ (by simp)] at h
      rcases List.mem_append.mp h with h1 | h2
      · rcases List.mem_append.mp h1 with ha | hb
        · exact Or.inr ⟨w, List.mem_cons_self _ _, ha⟩
        · exact Or.inl hb
      · rcases ih h2 with h3 | ⟨p, hp, hx⟩
        · exact Or.inl h3
        · exact Or.inr ⟨p, List.mem_cons_of_mem _ hp, hx⟩

theorem startsWithList_chars {pat s : List Char} (h : startsWithList pat s = true) :
    ∀ x ∈ pat, x ∈ s := by
  induction pat generalizing s with
  | nil => simp
  | cons p ps ih =>
    intro x hx
    cases s with
    | nil => simp [startsWithList] at h
    | cons c cs =>
      simp only [startsWithList, Bool.and_eq_true, decide_eq_true_eq] at h
      rcases List.mem_cons.mp hx with rfl | hx2
      · exact h.1 ▸ List.mem_cons_self _ _
      · exact List.mem_cons_of_mem c (ih h.2 x hx2)

theorem containsSub_chars {pat s : List Char} (h : containsSub pat s = true) :
    ∀ x ∈ pat, x ∈ s := by
  induction s with
  | nil =>
    intro x hx
    cases pat with
    | nil => simp at hx
    | cons p ps => simp [containsSub, startsWithList] at h
  | cons c cs ih =>
    intro x hx
    simp only [containsSub, Bool.or_eq_true] at h
    rcases h with h1 | h2
    · exact startsWithList_chars h1 x hx
    · exact List.mem_cons_of_mem c (ih h2 x hx)

theorem replicate_ne_nil_of_pos {α : Type} (n : Nat) (a : α) (hn : n ≠ 0) :
    List.replicate n a ≠ [] := by
  intro h
  exact hn (by simpa using congrArg List.length h)

theorem pyJoin_replicate_append (w : List Char) :
    ∀ n : Nat, pyJoin [' '] (List.replicate (n + 2) w)
      = pyJoin [' '] (List.replicate (n + 1) w) ++ ' ' :: w := by
  intro n
  induction n with
  | zero =>
    show pyJoin [' '] [w, w] = pyJoin [' '] [w] ++ ' ' :: w
    simp [pyJoin]
  | succ m ih =>
    show pyJoin [' '] (List.replicate (m + 3) w)
      = pyJoin [' '] (List.replicate (m + 2) w) ++ ' ' :: w
    have hne2 : List.replicate (m + 2) w ≠ [] := replicate_ne_nil_of_pos _ w (by omega)
    have hne1 : List.replicate (m + 1) w ≠ [] := replicate_ne_nil_of_pos _ w (by omega)
    conv_lhs => rw [show List.replicate (m + 3) w = w :: List.replicate (m + 2) w from rfl,
      pyJoin_cons [' '] w _ hne2, ih]
    conv_rhs => rw [show List.replicate (m + 2) w = w :: List.replicate (m + 1) w from rfl,
      pyJoin_cons [' '] w _ hne1]
    simp

theorem pyJoin_replicate_a_palindrome :
    ∀ n : Nat, (pyJoin [' '] (List.replicate (n + 1) ['a'])).reverse
      = pyJoin [' '] (List.replicate (n + 1) ['a']) := by
  intro n
  induction n with
  | zero => rfl
  | succ m ih =>
    show (pyJoin [' '] (List.replicate (m + 2) ['a'])).reverse
      = pyJoin [' '] (List.replicate (m + 2) ['a'])
    have hne1 : List.replicate (m + 1) ['a'] ≠ [] :=
      replicate_ne_nil_of_pos _ ['a'] (by omega)
    conv_lhs => rw [pyJoin_replicate_append ['a'] m, List.reverse_append, ih]
    conv_rhs => rw [show List.replicate (m + 2) ['a']
        = ['a'] :: List.replicate (m + 1) ['a'] from rfl,
      pyJoin_cons [' '] ['a'] _ hne1]
    simp

theorem c5text_cons :
    c5text = 'a' :: ' ' :: pyJoin [' '] (List.replicate 600 ['a']) := by
  unfold c5text
  rw [show List.replicate 601 ['a'] = ['a'] :: List.replicate 600 ['a'] from rfl,
    pyJoin_cons [' '] ['a'] _ (replicate_ne_nil_of_pos _ ['a'] (by decide))]
  rfl

theorem c5text_chars : ∀ x ∈ c5text, x = 'a' ∨ x = ' ' := by
  intro x hx
  rcases mem_pyJoin [' '] _ hx with h | ⟨p, hp, hxp⟩
  · right
    simpa using h
  · left
    rw [(List.mem_replicate.mp hp).2] at hxp
    simpa using hxp

theorem c5text_pyStrip : pyStrip c5text = c5text := by
  have hpal : c5text.reverse = c5text := pyJoin_replicate_a_palindrome 600
  have hdrop : c5text.dropWhile isPyWs = c5text := by
    rw [c5text_cons]
    exact List.dropWhile_cons_of_neg (by simp [isPyWs])
  unfold pyStrip
  rw [hdrop, hpal, hdrop, hpal]

theorem isTimestamp_cons_not_digit (c : Char) (rest : List Char)
    (h : isDigitChar c = false) : isTimestamp (c :: rest) = false := by
  simp [isTimestamp, h]

theorem c5text_not_timestamp : isTimestamp c5text = false := by
  rw [c5text_cons]
  exact isTimestamp_cons_not_digit 'a' _ rfl

theorem c5text_no_boilerplate (pat : List Char) (hF : 'F' ∈ pat ∨ 'R' ∈ pat) :
    containsSub pat c5text = false := by
  cases hq : containsSub pat c5text with
  | false => rfl
  | true =>
    exfalso
    rcases hF with hF | hF
    · rcases c5text_chars 'F' (containsSub_chars hq 'F' hF) with h | h <;> simp at h
    · rcases c5text_chars 'R' (containsSub_chars hq 'R' hF) with h | h <;> simp at h

theorem c5text_clean : clean_article_text c5text = c5text := by
  have hnl : '\n' ∉ c5text := by
    intro h
    rcases c5text_chars '\n' h with h2 | h2 <;> simp at h2
  have hproc : processLine c5text = some c5text :=
    processLine_fixed c5text_pyStrip
      (c5text_cons ▸ List.cons_ne_nil 'a' _)
      c5text_not_timestamp
      (c5text_no_boilerplate _ (Or.inl (by decide)))
      (c5text_no_boilerplate _ (Or.inr (by decide)))
  unfold clean_article_text cleanLines
  rw [pySplitOn_no_sep '\n' c5text hnl, List.filterMap_cons_some hproc]
  rfl

theorem c5text_words : pyWords c5text = List.replicate 601 ['a'] := by
  unfold c5text
  exact pyWords_pyJoin_space _ (fun w hw => by
    rw [(List.mem_replicate.mp hw).2]
    exact ⟨by simp, by simp [isPyWs]⟩)

theorem c5text_engineText : engineText c5text = c5text := by
  unfold engineText
  rw [c5text_clean, c5text_words, List.length_replicate, if_neg (by decide)]

/-! ## C5 -/

/-- C5: the code, not the claim, is at fault — the empty-partials path the
claim describes (`if not chunk_summaries: return None`, main.py line 190)
is unreachable: for the 601-word article (normalizing to two chunks), the
first chunk's prompt construction already raises `KeyError` at
`SUMMARY_PROMPT.format` (main.py line 177), for every service behavior, so
`chunk_summaries` is never formed — empty or otherwise — and neither the
claimed single-shot fallback nor the code's `return None` can run. -/
theorem no_partials_fallback_never_runs (gen : GenFun) (t : List Char) :
    summarize_article gen c5text t = Except.error keyErrTitle ∧
    (pyWords (engineText c5text)).length = 601 := by
  refine ⟨summarize_raises gen c5text t, ?_⟩
  rw [c5text_engineText, c5text_words, List.length_replicate]

/-! ## C1 -/

/-- C1: the code, not the claim, is at fault — neither the fallback record
the claim describes nor the code's `return None` on an unparseable final
merge response can ever run: `summarize_article` raises `KeyError` at the
very first `SUMMARY_PROMPT.format` call (main.py line 177), before any
generation response exists, so no run reaches the final JSON parse and no
result of any kind is returned. -/
theorem final_merge_fallback_never_runs (gen : GenFun) (a t : List Char) :
    summarize_article gen a t = Except.error keyErrTitle ∧
    ∀ r : Option Json, summarize_article gen a t ≠ Except.ok r := by
  refine ⟨summarize_raises gen a t, fun r h => ?_⟩
  rw [summarize_raises gen a t] at h
  cases h

/-! ## C4 -/

/-- C4: the code, not the claim, is at fault — the classifier
normalization the claim describes (`category.strip().lower() if category
else "other"`, main.py line 214) is dead code: `summarize_article` raises
`KeyError` at `SUMMARY_PROMPT.format` (main.py line 177) before any chunk,
merge or classification call, so no category is ever attached to anything.
The normalization expression itself, in isolation, strips and lowercases a
truthy response and yields `"other"` only for an absent or empty one, with
no first-token extraction and no membership check against a fixed set. -/
theorem classification_never_attached (gen : GenFun) (a t : List Char) :
    summarize_article gen a t = Except.error keyErrTitle ∧
    classifyCategory (some (" Sports News ").toList) = ("sports news").toList ∧
    classifyCategory none = ("other").toList :=
  ⟨summarize_raises gen a t, by decide, by decide⟩

/-! ## C9 -/

/-- C9 (amended): the minimum-content threshold in the code is 80 words,
not ≈40 — below 80 the low-confidence marker sentence is appended and the
pipeline proceeds on the marked text; at or above 80 the text is passed on
unchanged. -/
theorem short_text_marker (a : List Char) :
    ((pyWords (clean_article_text a)).length < 80 →
      engineText a = clean_article_text a ++
        "\n(Note: Article is short; summary may be limited.)".toList) ∧
    (80 ≤ (pyWords (clean_article_text a)).length →
      engineText a = clean_article_text a) ∧
    (∀ (gen : GenFun) (t : List Char),
      summarize_article gen a t = summarizeCore gen (engineText a)) := by
  refine ⟨fun h => ?_, fun h => ?_, fun gen t => rfl⟩
  · simp [engineText, h]
  · simp [engineText, Nat.not_lt.mpr h]

/-- Counterexample for C9 as stated: a 50-word body is at or above the
claimed ≈40-word threshold, yet the code appends the marker rather than
passing the text on unchanged. -/
theorem short_text_marker_counterexample :
    40 ≤ (pyWords (clean_article_text c9text)).length ∧
    (pyWords (clean_article_text c9text)).length < 80 ∧
    engineText c9text ≠ clean_article_text c9text ∧
    engineText c9text = clean_article_text c9text ++
      "\n(Note: Article is short; summary may be limited.)".toList := by
  refine ⟨by decide, by decide, by decide, by rfl⟩

/-- Witness for the amended C9 theorem at the 50-word body. -/
theorem short_text_marker_witness :
    engineText c9text = clean_article_text c9text ++
      "\n(Note: Article is short; summary may be limited.)".toList :=
  (short_text_marker c9text).1 (by decide)

end NewsSummary
